import Mathlib

/-!
Shallow embedding of the cache-demo microbenchmark (base.cpp, demo.cpp,
indirection.cpp) and proofs about its specification.

Machine-integer conventions (LP64, the platform the programs target):
`int` is a 32-bit two's-complement signed integer, `unsigned long` and
`size_t` are 64-bit unsigned integers.  We model `int` values as
mathematical integers together with an explicit wrap into
[-2^31, 2^31) at every operation the C++ abstract machine performs on
`int`, and the `unsigned long` accumulator as a natural number reduced
mod 2^64 at every addition.

Sources of randomness and time are modelled as oracles: the random draws
feeding `std::uniform_int_distribution` and `std::shuffle`, and the
timestamps returned by `high_resolution_clock::now()`, are inputs to the
embedded programs.
-/

namespace CacheDemo

/-- Configured cache capacity in bytes (base.cpp line 18 and twins). -/
def cacheSize : Nat := 8 * 1024 * 1024

/-- Number of ints (4 bytes each) that fit in the cache. -/
def intsInCache : Nat := cacheSize / 4

/-- Size of the sample buffer: `intsInCache * 10` elements. -/
def dataSetSize : Nat := intsInCache * 10

/-- Number of trials each variant runs (the `iterations` constant). -/
def iterations : Nat := 1000

/-- Modulus of a 32-bit integer, 2^32. -/
def int32Mod : Int := 4294967296

/-- Smallest magnitude not representable as a positive 32-bit int, 2^31. -/
def int32Half : Int := 2147483648

/-- Modulus of a 64-bit unsigned integer, 2^64. -/
def uint64Mod : Nat := 18446744073709551616

/-- Two's-complement reduction of an integer into the range of a 32-bit
signed `int`, [-2^31, 2^31).  This is the value a C++ `int` holds after
an arithmetic operation whose mathematical result is `z`. -/
def wrap32 (z : Int) : Int := (z + int32Half) % int32Mod - int32Half

/-- C++ conversion from `int` to the 64-bit `unsigned long`: the value
modulo 2^64, as a natural number. -/
def toUInt64Nat (z : Int) : Nat := (z % 18446744073709551616).toNat

/-- Model of `std::uniform_int_distribution<int>(lo, hi)` applied to one
raw draw of the engine: the library contract guarantees a result in
[lo, hi]; we fix the canonical representative `lo + raw % (hi - lo + 1)`. -/
def ud (lo hi : Int) (raw : Nat) : Int := lo + (raw % (hi - lo + 1).toNat : Nat)

/-- Upper end of the fill range of the indirection variants:
`(int)sqrt(numeric_limits<int>::max())`, the integer square root of
2^31 - 1 (the double `sqrt` of 2147483647 is 46340.95..., truncated by
the cast, which agrees with the exact integer square root; the lemma
`sqrtIntMax_eq_sqrt` below checks the value against `Nat.sqrt`). -/
def sqrtIntMax : Nat := 46340

/-- Embedding of `populateDataSet`: each element of the buffer is
assigned the next value produced by the bundled rng closure, in storage
order; `rng p` is the value produced by the p-th call. -/
def populateDataSet (rng : Nat → Int) (data : List Int) : List Int :=
  (List.range data.length).map rng

/-- Sum of the squares of a buffer, as an unbounded natural number (each
square of an integer is non-negative).  This is the mathematical value
the specification's `Σ vi²` denotes. -/
def sumSq (data : List Int) : Nat := (data.map (fun v => (v * v).toNat)).sum

/-- One step of the reduction accumulator in base.cpp's `doWork`:
`sum += d * d` where `d * d` is computed in `int` (wrapping) and then
converted to the 64-bit `unsigned long` accumulator. -/
def squareStep (sum : Nat) (d : Int) : Nat :=
  (sum + toUInt64Nat (wrap32 (d * d))) % uint64Mod

namespace Base

/-- Embedding of `doWork` from base.cpp: accumulate the squares into a
64-bit unsigned accumulator, divide by the element count (unsigned
division), and cast the quotient back to `int`.  The division by
`data.size()` is undefined for an empty buffer, hence the `Option`. -/
def doWork (data : List Int) : Option Int :=
  if data.length = 0 then none
  else some (wrap32 ((data.foldl squareStep 0 / data.length : Nat) : Int))

end Base

/-- Embedding of one assignment `*d = *d * *d` of the in-place-square
executors: the element at index `i` is replaced by the 32-bit wrap of
its square. -/
def squareAt (data : List Int) (i : Nat) : List Int :=
  data.set i (wrap32 (data.getD i 0 * data.getD i 0))

namespace Indirection

/-- Embedding of `doWork` from indirection.cpp: iterate the reference
table in table order, squaring each referenced element in place.
Pointers into the buffer are modelled as indices. -/
def doWork (data : List Int) (table : List Nat) : List Int :=
  table.foldl squareAt data

end Indirection

namespace Demo

/-- Embedding of `doWork` from demo.cpp (textually identical to the one
in indirection.cpp). -/
def doWork (data : List Int) (table : List Nat) : List Int :=
  table.foldl squareAt data

end Demo

/-- Exchange of the elements at positions `i` and `j` of a list, the
effect of `std::swap(t[i], t[j])` for in-range indices. -/
def swapIdx (t : List Nat) (i j : Nat) : List Nat :=
  (t.set i (t.getD j 0)).set j (t.getD i 0)

/-- Embedding of `std::shuffle(begin(t), end(t), re)`: the library
performs a Fisher-Yates pass, swapping element `i` with the element at a
random index drawn uniformly from [0, i], for i = 1 .. n-1.  The draws
are supplied by the choice oracle `c`; reducing `c i` mod `i + 1` models
the uniform draw's range contract. -/
def shuffle (c : Nat → Nat) (t : List Nat) : List Nat :=
  ((List.range (t.length - 1)).map (· + 1)).foldl
    (fun u i => swapIdx u i (c i % (i + 1))) t

/-- Embedding of the reference-table construction loop
`for i: pointers[i] = &data[i]` over a buffer of size `n`: a vector of
`n` entries is allocated and entry `i` is set to refer to element `i`. -/
def buildIdentityTable (n : Nat) : List Nat :=
  (List.range n).foldl (fun t i => t.set i i) (List.replicate n 0)

/-- Program state threaded through the trial loop: the sample buffer,
the reference table (empty in the base variant, which has none), and the
running total of the timed durations in nanoseconds. -/
structure St where
  buf : List Int
  table : List Nat
  runSum : Int
deriving Repr, DecidableEq

/-- Oracles supplying every value the programs read from the outside
world: raw random draws for the fills and the shuffle choices (indexed
by trial), per-trial start and stop timestamps of the timed region, and
the program-level start and end timestamps (all times in nanoseconds,
the representation of `high_resolution_clock::duration`). -/
structure Oracles where
  fillRaw : Nat → Nat → Nat
  choiceRaw : Nat → Nat → Nat
  tStart : Nat → Int
  tStop : Nat → Int
  progStart : Int
  progEnd : Int

/-- Phases of a trial, recorded in the order the loop body executes
them. -/
inductive Ev
| populateEv
| shuffleEv
| invalidateEv
| timerStartEv
| workEv
| timerStopEv
| accumulateEv
deriving Repr, DecidableEq

/-- Lines written to standard output, with their numeric fields; a
printed figure `q.r` is recorded as the pair of integers `q` and `r`. -/
inductive Line
| progress (run : Nat) (result : Int)
| blank
| totalLine (secs : Int) (millis : Int)
| runsLine (runs : Nat) (secs : Int) (millis : Int)
| avgLine (whole : Int) (frac : Int)
deriving Repr, DecidableEq

/-- Recognizer for per-trial progress lines. -/
def Line.isProgress : Line → Bool
| .progress _ _ => true
| _ => false

/-- Result of `duration_cast<milliseconds>` on a nanosecond count:
integer division truncating toward zero. -/
def durationCastMs (ns : Int) : Int := ns.tdiv 1000000

/-- Result of `duration_cast<microseconds>` on a nanosecond count. -/
def durationCastUs (ns : Int) : Int := ns.tdiv 1000

namespace Base

/-- Fill range of the base (direct-scan) variant:
`uniform_int_distribution<int> ud(1, 10)`. -/
def rng (o : Oracles) (k : Nat) : Nat → Int := fun p => ud 1 10 (o.fillRaw k p)

/-- One iteration of base.cpp's trial loop (lines 87-101): populate the
buffer (untimed), clear the cache (untimed), run `doWork` inside the
timestamp bracket, add the elapsed time to `runSum`, then print the
progress line `"Run i+1: result\r"`.  The cache clearing touches only
its own scratch buffers, so it has no effect on the program state. -/
def trial (o : Oracles) (k : Nat) (s : St) : St × List Ev × List Line :=
  let buf1 := populateDataSet (rng o k) s.buf
  let result := (doWork buf1).getD 0
  let elapsed := o.tStop k - o.tStart k
  (⟨buf1, s.table, s.runSum + elapsed⟩,
   [.populateEv, .invalidateEv, .timerStartEv, .workEv, .timerStopEv, .accumulateEv],
   [.progress (k + 1) result])

/-- Initial state of base.cpp: a zero-initialized buffer of `n` ints
(`vector<int>(n)` value-initializes), no reference table, zero
accumulated time. -/
def init (n : Nat) : St := ⟨List.replicate n 0, [], 0⟩

end Base

/-- Fill range of the indirection variants:
`uniform_int_distribution<int> ud(1, (int)sqrt(numeric_limits<int>::max()))`. -/
def rngInd (o : Oracles) (k : Nat) : Nat → Int :=
  fun p => ud 1 (sqrtIntMax : Int) (o.fillRaw k p)

namespace Indirection

/-- One iteration of indirection.cpp's trial loop (lines 86-95):
populate (untimed), clear the cache (untimed), timed `doWork` through
the reference table, accumulate.  No per-trial output, and the table is
never touched. -/
def trial (o : Oracles) (k : Nat) (s : St) : St × List Ev × List Line :=
  let buf1 := populateDataSet (rngInd o k) s.buf
  let buf2 := doWork buf1 s.table
  let elapsed := o.tStop k - o.tStart k
  (⟨buf2, s.table, s.runSum + elapsed⟩,
   [.populateEv, .invalidateEv, .timerStartEv, .workEv, .timerStopEv, .accumulateEv],
   [])

/-- Initial state of indirection.cpp: zeroed buffer of `n` ints and the
identity reference table built once before the loop. -/
def init (n : Nat) : St := ⟨List.replicate n 0, buildIdentityTable n, 0⟩

end Indirection

namespace Demo

/-- Populate phase of demo.cpp's trial `k`: refill the buffer, leaving
the table and accumulator alone. -/
def popPhase (o : Oracles) (k : Nat) (s : St) : St :=
  ⟨populateDataSet (rngInd o k) s.buf, s.table, s.runSum⟩

/-- Shuffle phase of demo.cpp's trial `k`: re-shuffle the reference
table in place. -/
def shufPhase (o : Oracles) (k : Nat) (s : St) : St :=
  ⟨s.buf, shuffle (o.choiceRaw k) s.table, s.runSum⟩

/-- Timed work phase: square every element reachable through the table. -/
def workPhase (s : St) : St :=
  ⟨doWork s.buf s.table, s.table, s.runSum⟩

/-- Accumulate phase: add the elapsed time of trial `k` to `runSum`. -/
def accPhase (o : Oracles) (k : Nat) (s : St) : St :=
  ⟨s.buf, s.table, s.runSum + (o.tStop k - o.tStart k)⟩

/-- One iteration of demo.cpp's trial loop (lines 82-92): populate,
shuffle the table, clear the cache, timed `doWork`, accumulate.  No
per-trial output. -/
def trial (o : Oracles) (k : Nat) (s : St) : St × List Ev × List Line :=
  (accPhase o k (workPhase (shufPhase o k (popPhase o k s))),
   [.populateEv, .shuffleEv, .invalidateEv, .timerStartEv, .workEv, .timerStopEv,
    .accumulateEv],
   [])

/-- Initial state of demo.cpp: zeroed buffer and identity table. -/
def init (n : Nat) : St := ⟨List.replicate n 0, buildIdentityTable n, 0⟩

end Demo

/-- The trial loop: run `n` trials with step function `step`, starting
at trial index `i`, concatenating the phase traces and output lines of
the individual trials in order. -/
def runFrom (step : Nat → St → St × List Ev × List Line) (i : Nat) :
    Nat → St → St × List Ev × List Line
| 0, s => (s, [], [])
| n + 1, s =>
  let r1 := step i s
  let r2 := runFrom step (i + 1) n r1.1
  (r2.1, r1.2.1 ++ r2.2.1, r1.2.2 ++ r2.2.2)

/-- The full trial loop: `n` trials numbered 0, 1, ..., n-1. -/
def run (step : Nat → St → St × List Ev × List Line) (n : Nat) (s : St) :
    St × List Ev × List Line :=
  runFrom step 0 n s

namespace Base

/-- Summary block of base.cpp (lines 104-113): cumulative trial time in
milliseconds, average run time in microseconds (the total in
microseconds divided by the iteration count), wall-clock runtime in
milliseconds; each printed as the pair `q.r` obtained by dividing by
1000 with remainder. -/
def summary (actualNs totalNs : Int) (iters : Nat) : List Line :=
  let cumulativeTime := durationCastMs totalNs
  let averageRunTime := (durationCastUs totalNs).tdiv (Int.ofNat iters)
  let actualRuntime := durationCastMs actualNs
  [.totalLine (actualRuntime.tdiv 1000) (actualRuntime.tmod 1000),
   .runsLine iters (cumulativeTime.tdiv 1000) (cumulativeTime.tmod 1000),
   .avgLine (averageRunTime.tdiv 1000) (averageRunTime.tmod 1000)]

/-- Everything base.cpp writes to standard output: the per-trial
progress lines, the bare newline after the loop, then the three-line
summary. -/
def out (o : Oracles) (n iters : Nat) : List Line :=
  let r := run (trial o) iters (init n)
  r.2.2 ++ [Line.blank] ++ summary (o.progEnd - o.progStart) r.1.runSum iters

end Base

namespace Indirection

/-- Summary block of indirection.cpp (lines 101-106): identical to the
base variant's, except that the average is computed from the nanosecond
count (`duration_cast<nanoseconds>(runSum).count() / iterations`). -/
def summary (actualNs totalNs : Int) (iters : Nat) : List Line :=
  let cumulativeTime := durationCastMs totalNs
  let averageRunTime := totalNs.tdiv (Int.ofNat iters)
  let actualRuntime := durationCastMs actualNs
  [.totalLine (actualRuntime.tdiv 1000) (actualRuntime.tmod 1000),
   .runsLine iters (cumulativeTime.tdiv 1000) (cumulativeTime.tmod 1000),
   .avgLine (averageRunTime.tdiv 1000) (averageRunTime.tmod 1000)]

/-- Everything indirection.cpp writes to standard output: only the
summary, no per-trial output. -/
def out (o : Oracles) (n iters : Nat) : List Line :=
  let r := run (trial o) iters (init n)
  summary (o.progEnd - o.progStart) r.1.runSum iters

end Indirection

namespace Demo

/-- Summary block of demo.cpp (lines 98-103), identical to
indirection.cpp's. -/
def summary (actualNs totalNs : Int) (iters : Nat) : List Line :=
  let cumulativeTime := durationCastMs totalNs
  let averageRunTime := totalNs.tdiv (Int.ofNat iters)
  let actualRuntime := durationCastMs actualNs
  [.totalLine (actualRuntime.tdiv 1000) (actualRuntime.tmod 1000),
   .runsLine iters (cumulativeTime.tdiv 1000) (cumulativeTime.tmod 1000),
   .avgLine (averageRunTime.tdiv 1000) (averageRunTime.tmod 1000)]

/-- Everything demo.cpp writes to standard output: only the summary. -/
def out (o : Oracles) (n iters : Nat) : List Line :=
  let r := run (trial o) iters (init n)
  summary (o.progEnd - o.progStart) r.1.runSum iters

end Demo

/-- Bijection invariant of the reference table: the table is a
permutation of the index set of the sample buffer. -/
def TableInv (s : St) : Prop := s.table.Perm (List.range s.buf.length)

/-- Oracles that always answer zero; used to evaluate the embedded
programs at concrete inputs. -/
def oZero : Oracles := ⟨fun _ _ => 0, fun _ _ => 0, fun _ => 0, fun _ => 0, 0, 0⟩

/-- Oracles whose clock reports every timed region as one nanosecond
long; used to evaluate the loop at concrete inputs. -/
def oUnit : Oracles := ⟨fun _ _ => 0, fun _ _ => 0, fun _ => 0, fun _ => 1, 0, 0⟩

/-! Helper lemmas about the embedded operations. -/

lemma sqrtIntMax_eq_sqrt : sqrtIntMax = Nat.sqrt 2147483647 := by
  norm_num [sqrtIntMax, Nat.sqrt]

lemma foldl_set_range : ∀ (m : Nat) (t : List Nat), m ≤ t.length →
    (List.range m).foldl (fun u i => u.set i i) t = List.range m ++ t.drop m := by
  intro m
  induction m with
  | zero => intro t _; simp
  | succ m ih =>
    intro t hm
    have hmt : m < t.length := Nat.lt_of_succ_le hm
    rw [List.range_succ, List.foldl_append, ih t (Nat.le_of_lt hmt)]
    simp only [List.foldl_cons, List.foldl_nil]
    rw [List.set_append]
    simp only [List.length_range, Nat.lt_irrefl, if_false, Nat.sub_self]
    simp only [List.range_succ, List.append_assoc]
    rw [List.drop_eq_getElem_cons hmt, List.set_cons_zero]
    simp

lemma buildIdentityTable_eq (n : Nat) : buildIdentityTable n = List.range n := by
  unfold buildIdentityTable
  rw [foldl_set_range n (List.replicate n 0) (by simp)]
  have : (List.replicate n (0 : Nat)).drop n = [] := by simp
  rw [this, List.append_nil]

lemma length_swapIdx (t : List Nat) (i j : Nat) : (swapIdx t i j).length = t.length := by
  simp [swapIdx]

lemma swapIdx_perm (t : List Nat) {i j : Nat} (hi : i < t.length) (hj : j < t.length) :
    (swapIdx t i j).Perm t := by
  rw [List.perm_iff_count]
  intro a
  have hj1 : j < (t.set i (t.getD j 0)).length := by simpa using hj
  have hgj : t.getD j 0 = t[j] := List.getD_eq_getElem t 0 hj
  have hgi : t.getD i 0 = t[i] := List.getD_eq_getElem t 0 hi
  have hv : (t.set i (t.getD j 0))[j] = t[j] := by
    by_cases hij : i = j
    · subst hij; rw [List.getElem_set_self, hgj]
    · rw [List.getElem_set_ne hij]
  unfold swapIdx
  rw [List.count_set (t.getD i 0) a (t.set i (t.getD j 0)) j hj1,
    List.count_set (t.getD j 0) a t i hi]
  rw [hv, hgi, hgj]
  have hmemi : t[i] ∈ t := List.getElem_mem hi
  have hle : (if (t[i] == a) = true then 1 else 0) ≤ List.count a t := by
    by_cases h : t[i] = a
    · subst h
      simp only [beq_self_eq_true, if_true]
      exact List.one_le_count_iff.mpr hmemi
    · simp [h]
  by_cases h1 : t[i] = a <;> by_cases h2 : t[j] = a <;> simp_all

lemma foldl_swap_perm (c : Nat → Nat) :
    ∀ (L : List Nat) (t : List Nat), (∀ i ∈ L, i < t.length) →
      (L.foldl (fun u i => swapIdx u i (c i % (i + 1))) t).Perm t := by
  intro L
  induction L with
  | nil => intro t _; exact List.Perm.refl t
  | cons i L ih =>
    intro t h
    have hi : i < t.length := h i (by simp)
    have hj : c i % (i + 1) < t.length :=
      lt_of_le_of_lt (Nat.le_of_lt_succ (Nat.mod_lt _ (Nat.succ_pos i))) hi
    simp only [List.foldl_cons]
    have h2 : ∀ x ∈ L, x < (swapIdx t i (c i % (i + 1))).length := by
      intro x hx
      rw [length_swapIdx]
      exact h x (List.mem_cons_of_mem _ hx)
    exact (ih _ h2).trans (swapIdx_perm t hi hj)

lemma shuffle_perm (c : Nat → Nat) (t : List Nat) : (shuffle c t).Perm t := by
  apply foldl_swap_perm
  intro i hi
  simp only [List.mem_map, List.mem_range] at hi
  obtain ⟨k, hk, rfl⟩ := hi
  omega

lemma length_populateDataSet (rng : Nat → Int) (data : List Int) :
    (populateDataSet rng data).length = data.length := by
  simp [populateDataSet]

lemma mem_populateDataSet {rng : Nat → Int} {data : List Int} {v : Int}
    (hv : v ∈ populateDataSet rng data) : ∃ p, p < data.length ∧ v = rng p := by
  simp only [populateDataSet, List.mem_map, List.mem_range] at hv
  obtain ⟨p, hp, h⟩ := hv
  exact ⟨p, hp, h.symm⟩

lemma ud_mem {lo hi : Int} (h : lo ≤ hi) (raw : Nat) :
    lo ≤ ud lo hi raw ∧ ud lo hi raw ≤ hi := by
  unfold ud
  have hpos : 0 < (hi - lo + 1).toNat := by omega
  have hlt : raw % (hi - lo + 1).toNat < (hi - lo + 1).toNat := Nat.mod_lt _ hpos
  omega

lemma foldl_squareAt_length : ∀ (L : List Nat) (data : List Int),
    (L.foldl squareAt data).length = data.length := by
  intro L
  induction L with
  | nil => intro data; rfl
  | cons i L ih =>
    intro data
    simp only [List.foldl_cons]
    rw [ih]
    simp [squareAt]

lemma foldl_squareAt_getD : ∀ (L : List Nat) (data : List Int), L.Nodup →
    (∀ i ∈ L, i < data.length) → ∀ j, j < data.length →
    (L.foldl squareAt data).getD j 0 =
      if j ∈ L then wrap32 (data.getD j 0 * data.getD j 0) else data.getD j 0 := by
  intro L
  induction L with
  | nil => intro data _ _ j hj; simp
  | cons i L ih =>
    intro data hnd hlt j hj
    simp only [List.foldl_cons]
    have hi : i < data.length := hlt i (by simp)
    have hnd' : L.Nodup := (List.nodup_cons.mp hnd).2
    have hni : i ∉ L := (List.nodup_cons.mp hnd).1
    have hlen : (squareAt data i).length = data.length := by simp [squareAt]
    have hlt' : ∀ x ∈ L, x < (squareAt data i).length := by
      intro x hx
      rw [hlen]
      exact hlt x (List.mem_cons_of_mem _ hx)
    have hj' : j < (squareAt data i).length := by rw [hlen]; exact hj
    rw [ih (squareAt data i) hnd' hlt' j (by rw [hlen]; exact hj)]
    by_cases hji : j = i
    · subst hji
      rw [if_neg hni, if_pos (List.mem_cons_self j L)]
      unfold squareAt
      rw [List.getD_eq_getElem _ _ (by simpa using hj), List.getElem_set_self]
    · have hset : (squareAt data i).getD j 0 = data.getD j 0 := by
        unfold squareAt
        rw [List.getD_eq_getElem _ _ (by simpa using hj),
          List.getElem_set_ne (fun h => hji h.symm), ← List.getD_eq_getElem _ _ hj]
      rw [hset]
      by_cases hjL : j ∈ L
      · rw [if_pos hjL, if_pos (List.mem_cons_of_mem _ hjL)]
      · rw [if_neg hjL, if_neg (by simp [hji, hjL])]

lemma doWork_inplace_eq_map {data : List Int} {table : List Nat}
    (h : table.Perm (List.range data.length)) :
    table.foldl squareAt data = data.map (fun v => wrap32 (v * v)) := by
  have hnd : table.Nodup := h.nodup_iff.mpr (List.nodup_range _)
  have hmem : ∀ i, i ∈ table ↔ i < data.length := by
    intro i
    rw [h.mem_iff, List.mem_range]
  apply List.ext_getElem
  · rw [foldl_squareAt_length, List.length_map]
  · intro j h1 h2
    have hj : j < data.length := by rwa [foldl_squareAt_length] at h1
    have hchar := foldl_squareAt_getD table data hnd (fun i hi => (hmem i).mp hi) j hj
    rw [if_pos ((hmem j).mpr hj)] at hchar
    rw [← List.getD_eq_getElem _ 0 h1, hchar, List.getElem_map,
      List.getD_eq_getElem _ 0 hj]

lemma wrap32_eq_self {z : Int} (h1 : -2147483648 ≤ z) (h2 : z < 2147483648) :
    wrap32 z = z := by
  unfold wrap32 int32Half int32Mod
  rw [Int.emod_eq_of_lt (by omega) (by omega)]
  omega

lemma int_sq_toNat (d : Int) : (d * d).toNat = d.natAbs * d.natAbs := by
  rw [← Int.natAbs_mul_self]
  exact Int.toNat_natCast _

lemma sq_toNat_le {d : Int} (hd : d.natAbs ≤ 46340) : (d * d).toNat ≤ 2147395600 := by
  rw [int_sq_toNat]
  calc d.natAbs * d.natAbs ≤ 46340 * 46340 := Nat.mul_le_mul hd hd
  _ = 2147395600 := by norm_num

lemma squareStep_eq {sum : Nat} {d : Int} (hd : d.natAbs ≤ 46340)
    (hs : sum + 2147395600 < uint64Mod) :
    squareStep sum d = sum + (d * d).toNat := by
  have hz : (0 : Int) ≤ d * d := mul_self_nonneg d
  have hb : (d * d).toNat ≤ 2147395600 := sq_toNat_le hd
  have hw : wrap32 (d * d) = d * d := wrap32_eq_self (by omega) (by omega)
  unfold squareStep toUInt64Nat
  rw [hw, Int.emod_eq_of_lt hz (by omega)]
  unfold uint64Mod at hs ⊢
  rw [Nat.mod_eq_of_lt (by omega)]

lemma sumSq_cons (v : Int) (data : List Int) :
    sumSq (v :: data) = (v * v).toNat + sumSq data := by
  simp [sumSq]

lemma foldl_squareStep_eq : ∀ (data : List Int) (acc : Nat),
    (∀ v ∈ data, v.natAbs ≤ 46340) →
    acc + data.length * 2147395600 < uint64Mod →
    data.foldl squareStep acc = acc + sumSq data ∧
      sumSq data ≤ data.length * 2147395600 := by
  intro data
  induction data with
  | nil => intro acc _ _; simp [sumSq]
  | cons v data ih =>
    intro acc hv hacc
    simp only [List.length_cons] at hacc
    have hdv : v.natAbs ≤ 46340 := hv v (by simp)
    have hb : (v * v).toNat ≤ 2147395600 := sq_toNat_le hdv
    have hstep := @squareStep_eq acc v hdv (by omega)
    have ih' := ih (acc + (v * v).toNat)
      (fun w hw => hv w (List.mem_cons_of_mem _ hw)) (by omega)
    simp only [List.foldl_cons, List.length_cons]
    rw [hstep, sumSq_cons]
    constructor
    · rw [ih'.1]
      omega
    · have h2 := ih'.2
      omega

lemma doWork_base_eq {data : List Int} (hne : data ≠ [])
    (hv : ∀ v ∈ data, v.natAbs ≤ 46340) (hlen : data.length ≤ 4294967296) :
    Base.doWork data = some ((sumSq data / data.length : Nat) : Int) := by
  have hl0 : data.length ≠ 0 := fun h => hne (List.length_eq_zero.mp h)
  have hmul : data.length * 2147395600 ≤ 4294967296 * 2147395600 :=
    Nat.mul_le_mul_right _ hlen
  have hbig : 0 + data.length * 2147395600 < uint64Mod := by
    unfold uint64Mod
    omega
  obtain ⟨hfold, hbound⟩ := foldl_squareStep_eq data 0 hv hbig
  unfold Base.doWork
  rw [if_neg hl0, hfold, Nat.zero_add]
  have hq : sumSq data / data.length ≤ 2147395600 := by
    calc sumSq data / data.length ≤ data.length * 2147395600 / data.length :=
      Nat.div_le_div_right hbound
    _ = 2147395600 := Nat.mul_div_cancel_left _ (Nat.pos_of_ne_zero hl0)
  have hc1 : (0 : Int) ≤ ((sumSq data / data.length : Nat) : Int) := Int.natCast_nonneg _
  have hc2 : ((sumSq data / data.length : Nat) : Int) ≤ 2147395600 := by
    exact_mod_cast hq
  rw [wrap32_eq_self (by omega) (by omega)]

/-! Generic lemmas about the trial loop. -/

lemma runFrom_runSum (step : Nat → St → St × List Ev × List Line) (e : Nat → Int)
    (hstep : ∀ k s, (step k s).1.runSum = s.runSum + e k) :
    ∀ (N i : Nat) (s : St), (runFrom step i N s).1.runSum =
      s.runSum + ((List.range N).map (fun j => e (i + j))).sum := by
  intro N
  induction N with
  | zero => intro i s; simp [runFrom]
  | succ N ih =>
    intro i s
    simp only [runFrom]
    rw [ih (i + 1) (step i s).1, hstep]
    rw [List.range_succ_eq_map]
    simp only [List.map_cons, List.sum_cons, List.map_map]
    have hmap : List.map ((fun j => e (i + j)) ∘ Nat.succ) (List.range N) =
        List.map (fun j => e (i + 1 + j)) (List.range N) := by
      apply List.map_congr_left
      intro j _
      simp only [Function.comp_apply]
      congr 1
      omega
    rw [hmap]
    simp only [Nat.add_zero]
    omega

lemma runFrom_evs (step : Nat → St → St × List Ev × List Line) (E : List Ev)
    (hstep : ∀ k s, (step k s).2.1 = E) :
    ∀ (N i : Nat) (s : St), (runFrom step i N s).2.1 = (List.replicate N E).flatten := by
  intro N
  induction N with
  | zero => intro i s; simp [runFrom]
  | succ N ih =>
    intro i s
    simp only [runFrom]
    rw [hstep, ih (i + 1), List.replicate_succ, List.flatten_cons]

lemma runFrom_out_nil (step : Nat → St → St × List Ev × List Line)
    (hstep : ∀ k s, (step k s).2.2 = []) :
    ∀ (N i : Nat) (s : St), (runFrom step i N s).2.2 = [] := by
  intro N
  induction N with
  | zero => intro i s; simp [runFrom]
  | succ N ih =>
    intro i s
    simp only [runFrom]
    rw [hstep, ih (i + 1), List.nil_append]

lemma runFrom_out_length (step : Nat → St → St × List Ev × List Line)
    (hstep : ∀ k s, (step k s).2.2.length = 1) :
    ∀ (N i : Nat) (s : St), (runFrom step i N s).2.2.length = N := by
  intro N
  induction N with
  | zero => intro i s; simp [runFrom]
  | succ N ih =>
    intro i s
    simp only [runFrom, List.length_append]
    rw [hstep, ih (i + 1)]
    omega

lemma runFrom_out_forall (step : Nat → St → St × List Ev × List Line) (p : Line → Prop)
    (hstep : ∀ k s, ∀ l ∈ (step k s).2.2, p l) :
    ∀ (N i : Nat) (s : St), ∀ l ∈ (runFrom step i N s).2.2, p l := by
  intro N
  induction N with
  | zero => intro i s l hl; simp [runFrom] at hl
  | succ N ih =>
    intro i s l hl
    simp only [runFrom, List.mem_append] at hl
    rcases hl with h | h
    · exact hstep i s l h
    · exact ih (i + 1) (step i s).1 l h

lemma count_flatten_replicate (N : Nat) (E : List Ev) (ev : Ev) :
    (List.replicate N E).flatten.count ev = N * E.count ev := by
  induction N with
  | zero => simp
  | succ N ih =>
    rw [List.replicate_succ, List.flatten_cons, List.count_append, ih]
    ring

/-! Per-variant facts about a single trial, all definitional. -/

lemma base_trial_runSum (o : Oracles) (k : Nat) (s : St) :
    (Base.trial o k s).1.runSum = s.runSum + (o.tStop k - o.tStart k) := rfl

lemma ind_trial_runSum (o : Oracles) (k : Nat) (s : St) :
    (Indirection.trial o k s).1.runSum = s.runSum + (o.tStop k - o.tStart k) := rfl

lemma demo_trial_runSum (o : Oracles) (k : Nat) (s : St) :
    (Demo.trial o k s).1.runSum = s.runSum + (o.tStop k - o.tStart k) := rfl

lemma ind_trial_table (o : Oracles) (k : Nat) (s : St) :
    (Indirection.trial o k s).1.table = s.table := rfl

lemma ind_run_table (o : Oracles) :
    ∀ (k i : Nat) (s : St), (runFrom (Indirection.trial o) i k s).1.table = s.table := by
  intro k
  induction k with
  | zero => intro i s; rfl
  | succ k ih =>
    intro i s
    simp only [runFrom]
    rw [ih (i + 1)]
    exact ind_trial_table o i s

/-! Preservation of the reference-table bijection. -/

lemma demo_pop_tableInv (o : Oracles) (k : Nat) (s : St) (h : TableInv s) :
    TableInv (Demo.popPhase o k s) := by
  unfold TableInv Demo.popPhase at *
  simpa [length_populateDataSet] using h

lemma demo_shuf_tableInv (o : Oracles) (k : Nat) (s : St) (h : TableInv s) :
    TableInv (Demo.shufPhase o k s) := by
  unfold TableInv Demo.shufPhase at *
  exact (shuffle_perm _ _).trans h

lemma demo_work_tableInv (s : St) (h : TableInv s) : TableInv (Demo.workPhase s) := by
  unfold TableInv Demo.workPhase Demo.doWork at *
  simpa [foldl_squareAt_length] using h

lemma demo_acc_tableInv (o : Oracles) (k : Nat) (s : St) (h : TableInv s) :
    TableInv (Demo.accPhase o k s) := h

lemma demo_trial_tableInv (o : Oracles) (k : Nat) (s : St) (h : TableInv s) :
    TableInv (Demo.trial o k s).1 :=
  demo_acc_tableInv o k _ (demo_work_tableInv _ (demo_shuf_tableInv o k _
    (demo_pop_tableInv o k s h)))

lemma demo_init_tableInv (n : Nat) : TableInv (Demo.init n) := by
  unfold TableInv Demo.init
  simp only [buildIdentityTable_eq, List.length_replicate]
  exact List.Perm.refl _

lemma demo_run_tableInv (o : Oracles) :
    ∀ (k i : Nat) (s : St), TableInv s → TableInv (runFrom (Demo.trial o) i k s).1 := by
  intro k
  induction k with
  | zero => intro i s h; exact h
  | succ k ih =>
    intro i s h
    simp only [runFrom]
    exact ih (i + 1) _ (demo_trial_tableInv o i s h)

lemma ind_trial_buf_length (o : Oracles) (k : Nat) (s : St) :
    (Indirection.trial o k s).1.buf.length = s.buf.length := by
  show (Indirection.doWork (populateDataSet (rngInd o k) s.buf) s.table).length = s.buf.length
  unfold Indirection.doWork
  rw [foldl_squareAt_length, length_populateDataSet]

lemma ind_run_buf_length (o : Oracles) :
    ∀ (k i : Nat) (s : St), (runFrom (Indirection.trial o) i k s).1.buf.length = s.buf.length := by
  intro k
  induction k with
  | zero => intro i s; rfl
  | succ k ih =>
    intro i s
    simp only [runFrom]
    rw [ih (i + 1), ind_trial_buf_length]

lemma run_runSum_of (step : Nat → St → St × List Ev × List Line) (e : Nat → Int)
    (hstep : ∀ k s, (step k s).1.runSum = s.runSum + e k) (N : Nat) (s : St) :
    (run step N s).1.runSum = s.runSum + ((List.range N).map e).sum := by
  unfold run
  rw [runFrom_runSum step e hstep N 0 s]
  have hm : (List.range N).map (fun j => e (0 + j)) = (List.range N).map e := by
    apply List.map_congr_left
    intro j _
    rw [Nat.zero_add]
  rw [hm]

lemma tdiv_natCast_eq (m n : Nat) : (Int.ofNat m).tdiv (Int.ofNat n) = Int.ofNat (m / n) := rfl

lemma tmod_natCast_eq (m n : Nat) : (Int.ofNat m).tmod (Int.ofNat n) = Int.ofNat (m % n) := rfl

lemma div_bracket (x n : Nat) (hn : 0 < n) : n * (x / n) ≤ x ∧ x < n * (x / n + 1) := by
  constructor
  · rw [Nat.mul_comm]
    exact Nat.div_mul_le_self x n
  · rw [Nat.mul_comm]
    exact (Nat.div_lt_iff_lt_mul hn).mp (Nat.lt_succ_self _)

/-! Theorems settling the specification claims. -/

/-- C1, counterexample: the reduction executor does not return
`floor(Σ vi² / n)` for every integer buffer.  On the buffer [65536] the
`int` multiplication 65536 * 65536 wraps to 0, so `doWork` returns 0,
while the exact sum of squares divided by the count is 4294967296. -/
theorem c1_counterexample :
    Base.doWork [65536] = some 0 ∧
    sumSq ([65536] : List Int) / ([65536] : List Int).length = 4294967296 ∧
    Base.doWork [65536] ≠
      some ((sumSq ([65536] : List Int) / ([65536] : List Int).length : Nat) : Int) := by
  exact ⟨by decide, by decide, by decide⟩

/-- C1, amended: for every non-empty buffer whose values have magnitude
at most 46340 (so that every `int` square is exact) and whose length is
at most 2^32 (so that the 64-bit accumulator cannot wrap), `doWork`
iterates the buffer in storage order, accumulates the sum of squares in
the wide accumulator, and returns exactly the integer-truncated mean
`floor(Σ vi² / n)`. -/
theorem c1_reduction_mean (data : List Int) (hne : data ≠ [])
    (hv : ∀ v ∈ data, v.natAbs ≤ 46340) (hlen : data.length ≤ 4294967296) :
    Base.doWork data = some ((sumSq data / data.length : Nat) : Int) :=
  doWork_base_eq hne hv hlen

/-- C1, witness: the amended theorem applied to the buffer [2, 3, 4],
where the returned mean is floor(29 / 3) = 9. -/
theorem c1_witness :
    (([2, 3, 4] : List Int) ≠ []) ∧
    (∀ v ∈ ([2, 3, 4] : List Int), v.natAbs ≤ 46340) ∧
    (([2, 3, 4] : List Int).length ≤ 4294967296) ∧
    Base.doWork [2, 3, 4] =
      some ((sumSq ([2, 3, 4] : List Int) / ([2, 3, 4] : List Int).length : Nat) : Int) ∧
    Base.doWork [2, 3, 4] = some 9 :=
  ⟨by decide, by decide, by decide,
   c1_reduction_mean [2, 3, 4] (by decide) (by decide) (by decide), by decide⟩

/-- C2, counterexample: after the in-place-square executor runs, a
buffer element does not always equal the square of its previous value:
on the buffer [65536] with the identity table the element becomes 0
(the `int` multiplication wraps), not 65536² = 4294967296. -/
theorem c2_counterexample :
    Indirection.doWork [65536] [0] = [0] ∧
    Demo.doWork [65536] [0] = [0] ∧
    ((65536 : Int) * 65536 = 4294967296) ∧
    Indirection.doWork [65536] [0] ≠ [(65536 : Int) * 65536] := by
  exact ⟨by decide, by decide, by decide, by decide⟩

/-- C2, amended: for every buffer and every reference table that is a
permutation of the buffer's indices, after the in-place-square executor
each element equals the 32-bit two's-complement wrap of the square of
its previous value — which is the exact square whenever the magnitude
of the value is at most 46340 — and the resulting buffer does not
depend on the traversal order given by the permutation.  The buffer
[2, 3, 4] becomes [4, 9, 16] under the identity table and under the
shuffled table [2, 0, 1]. -/
theorem c2_inplace_square (data : List Int) (table : List Nat)
    (h : table.Perm (List.range data.length)) :
    Indirection.doWork data table = data.map (fun v => wrap32 (v * v)) ∧
    Demo.doWork data table = data.map (fun v => wrap32 (v * v)) ∧
    (∀ table2 : List Nat, table2.Perm (List.range data.length) →
      Indirection.doWork data table = Indirection.doWork data table2) ∧
    (∀ v : Int, v.natAbs ≤ 46340 → wrap32 (v * v) = v * v) ∧
    Demo.doWork [2, 3, 4] [0, 1, 2] = [4, 9, 16] ∧
    Demo.doWork [2, 3, 4] [2, 0, 1] = [4, 9, 16] := by
  refine ⟨doWork_inplace_eq_map h, doWork_inplace_eq_map h, ?_, ?_, by decide, by decide⟩
  · intro table2 h2
    exact (doWork_inplace_eq_map h).trans (doWork_inplace_eq_map h2).symm
  · intro v hv
    have h1 := sq_toNat_le hv
    have h2 : (0 : Int) ≤ v * v := mul_self_nonneg v
    exact wrap32_eq_self (by omega) (by omega)

/-- C2, witness: the amended theorem applied to the buffer [2, 3, 4]
with the shuffled table [2, 0, 1]. -/
theorem c2_witness :
    (([2, 0, 1] : List Nat).Perm (List.range ([2, 3, 4] : List Int).length)) ∧
    Indirection.doWork [2, 3, 4] [2, 0, 1] =
      ([2, 3, 4] : List Int).map (fun v => wrap32 (v * v)) := by
  have hp : ([2, 0, 1] : List Nat).Perm (List.range ([2, 3, 4] : List Int).length) := by
    decide
  exact ⟨hp, (c2_inplace_square [2, 3, 4] [2, 0, 1] hp).1⟩

/-- C3: the reference table is a bijection onto the sample buffer's
indices at every point in the trial loop of the indirection variants:
it holds on entry to every trial and after each phase of the loop body
(populate, shuffle, timed work, accumulate); `shuffle` always maps the
table to a permutation of itself (hence preserves the bijection, for
any length); repopulating the buffer never changes the table; and in
the non-shuffled variant the table stays exactly the identity table. -/
theorem c3_table_bijection :
    (∀ (c : Nat → Nat) (t : List Nat), (shuffle c t).Perm t) ∧
    (∀ (o : Oracles) (n k : Nat),
      TableInv (run (Demo.trial o) k (Demo.init n)).1 ∧
      TableInv (Demo.popPhase o k (run (Demo.trial o) k (Demo.init n)).1) ∧
      TableInv (Demo.shufPhase o k (Demo.popPhase o k (run (Demo.trial o) k (Demo.init n)).1)) ∧
      TableInv (Demo.workPhase (Demo.shufPhase o k
        (Demo.popPhase o k (run (Demo.trial o) k (Demo.init n)).1))) ∧
      TableInv (Demo.accPhase o k (Demo.workPhase (Demo.shufPhase o k
        (Demo.popPhase o k (run (Demo.trial o) k (Demo.init n)).1))))) ∧
    (∀ (o : Oracles) (k : Nat) (s : St), (Demo.popPhase o k s).table = s.table) ∧
    (∀ (o : Oracles) (n k : Nat),
      (run (Indirection.trial o) k (Indirection.init n)).1.table = buildIdentityTable n ∧
      TableInv (run (Indirection.trial o) k (Indirection.init n)).1) := by
  refine ⟨shuffle_perm, ?_, fun o k s => rfl, ?_⟩
  · intro o n k
    have h0 : TableInv (run (Demo.trial o) k (Demo.init n)).1 :=
      demo_run_tableInv o k 0 _ (demo_init_tableInv n)
    have h1 := demo_pop_tableInv o k _ h0
    have h2 := demo_shuf_tableInv o k _ h1
    have h3 := demo_work_tableInv _ h2
    exact ⟨h0, h1, h2, h3, demo_acc_tableInv o k _ h3⟩
  · intro o n k
    have ht : (run (Indirection.trial o) k (Indirection.init n)).1.table =
        buildIdentityTable n := ind_run_table o k 0 (Indirection.init n)
    refine ⟨ht, ?_⟩
    unfold TableInv
    rw [ht, buildIdentityTable_eq]
    have hb : (run (Indirection.trial o) k (Indirection.init n)).1.buf.length = n := by
      have := ind_run_buf_length o k 0 (Indirection.init n)
      simpa [Indirection.init] using this
    rw [hb]

/-- C4: for a buffer of size `n` the identity-table construction loop
produces a table of length `n` that is a permutation of 0..n-1, maps
entry `i` to buffer index `i`, and is built exactly once, before the
trial loop: the non-shuffled variant's trials never change it. -/
theorem c4_identity_table (n : Nat) :
    (buildIdentityTable n).length = n ∧
    (buildIdentityTable n).Perm (List.range n) ∧
    (∀ i, i < n → (buildIdentityTable n).getD i 0 = i) ∧
    (∀ (o : Oracles) (k : Nat),
      (run (Indirection.trial o) k (Indirection.init n)).1.table = buildIdentityTable n) := by
  refine ⟨?_, ?_, ?_, ?_⟩
  · rw [buildIdentityTable_eq]
    exact List.length_range n
  · rw [buildIdentityTable_eq]
  · intro i hi
    rw [buildIdentityTable_eq,
      List.getD_eq_getElem _ _ (by simpa using hi), List.getElem_range]
  · intro o k
    exact ind_run_table o k 0 (Indirection.init n)

/-- C4, witness: the identity table of size 3, with entry 1 mapping to
index 1, unchanged after two trials of the non-shuffled variant. -/
theorem c4_witness :
    (buildIdentityTable 3).length = 3 ∧
    (buildIdentityTable 3).Perm (List.range 3) ∧
    ((1 : Nat) < 3 ∧ (buildIdentityTable 3).getD 1 0 = 1) ∧
    (run (Indirection.trial oZero) 2 (Indirection.init 3)).1.table = buildIdentityTable 3 := by
  have h := c4_identity_table 3
  exact ⟨h.1, h.2.1, ⟨by decide, h.2.2.1 1 (by decide)⟩, h.2.2.2 oZero 2⟩

/-- C5: populate fills every buffer element with a value in the
variant's range — [1, 10] for the direct-scan variant, [1, 46340] (the
integer square root of INT_MAX, checked against `Nat.sqrt`) for the
indirection variants — and under those ranges no overflow occurs: every
in-place square fits in the 32-bit element type, and the reduction's
sum of squares over any buffer up to the configured size is computed
exactly by the 64-bit accumulator, without wrap. -/
theorem c5_fill_ranges_no_overflow :
    (∀ (o : Oracles) (k : Nat) (data : List Int) (v : Int),
      v ∈ populateDataSet (Base.rng o k) data → 1 ≤ v ∧ v ≤ 10) ∧
    (∀ (o : Oracles) (k : Nat) (data : List Int) (v : Int),
      v ∈ populateDataSet (rngInd o k) data → 1 ≤ v ∧ v ≤ 46340) ∧
    sqrtIntMax = Nat.sqrt 2147483647 ∧
    (∀ v : Int, 1 ≤ v → v ≤ 46340 → wrap32 (v * v) = v * v) ∧
    (∀ data : List Int, (∀ v ∈ data, 1 ≤ v ∧ v ≤ 10) → data.length ≤ dataSetSize →
      data.foldl squareStep 0 = sumSq data ∧ sumSq data < uint64Mod) := by
  refine ⟨?_, ?_, sqrtIntMax_eq_sqrt, ?_, ?_⟩
  · intro o k data v hv
    obtain ⟨p, _, rfl⟩ := mem_populateDataSet hv
    exact ud_mem (by norm_num) (o.fillRaw k p)
  · intro o k data v hv
    obtain ⟨p, _, rfl⟩ := mem_populateDataSet hv
    have := @ud_mem 1 (sqrtIntMax : Int) (by norm_num [sqrtIntMax]) (o.fillRaw k p)
    unfold rngInd
    unfold sqrtIntMax at this ⊢
    exact_mod_cast this
  · intro v h1 h2
    have hna : v.natAbs ≤ 46340 := by omega
    have hb := sq_toNat_le hna
    have hz : (0 : Int) ≤ v * v := mul_self_nonneg v
    exact wrap32_eq_self (by omega) (by omega)
  · intro data hv hlen
    have hds : dataSetSize = 20971520 := by norm_num [dataSetSize, intsInCache, cacheSize]
    rw [hds] at hlen
    have hva : ∀ v ∈ data, v.natAbs ≤ 46340 := by
      intro v hvm
      have := hv v hvm
      omega
    have hmul : data.length * 2147395600 ≤ 20971520 * 2147395600 :=
      Nat.mul_le_mul_right _ hlen
    have hbig : 0 + data.length * 2147395600 < uint64Mod := by
      unfold uint64Mod
      omega
    obtain ⟨hfold, hbound⟩ := foldl_squareStep_eq data 0 hva hbig
    refine ⟨by rw [hfold, Nat.zero_add], ?_⟩
    unfold uint64Mod
    omega

/-- C5, witness: a concrete fill draw of the base range lands in
[1, 10]; squaring 46340 is exact; and the accumulator computes the sum
of squares of [2, 3] (namely 13) exactly. -/
theorem c5_witness :
    ((1 : Int) ∈ populateDataSet (Base.rng oZero 0) [0, 0] ∧
      (1 : Int) ≤ 1 ∧ (1 : Int) ≤ 10) ∧
    ((1 : Int) ≤ 46340 ∧ (46340 : Int) ≤ 46340 ∧
      wrap32 ((46340 : Int) * 46340) = (46340 : Int) * 46340) ∧
    ((∀ v ∈ ([2, 3] : List Int), 1 ≤ v ∧ v ≤ 10) ∧
      ([2, 3] : List Int).length ≤ dataSetSize ∧
      ([2, 3] : List Int).foldl squareStep 0 = sumSq ([2, 3] : List Int) ∧
      sumSq ([2, 3] : List Int) = 13) := by
  have hm : (1 : Int) ∈ populateDataSet (Base.rng oZero 0) [0, 0] := by decide
  have h1 := c5_fill_ranges_no_overflow.1 oZero 0 [0, 0] 1 hm
  have h4 := c5_fill_ranges_no_overflow.2.2.2.1 46340 (by decide) (by decide)
  have h5 := c5_fill_ranges_no_overflow.2.2.2.2 [2, 3] (by decide) (by decide)
  exact ⟨⟨hm, h1.1, h1.2⟩, ⟨by decide, by decide, h4⟩,
    ⟨by decide, by decide, h5.1, by decide⟩⟩

/-- C6: each variant's trial loop runs exactly `iterations` = 1000
trials, none skipped or retried: the phase trace of a k-trial run is
exactly k concatenated copies of the single-trial phase list, which is
populate, then — in the shuffled variant only, never in the other two —
one re-shuffle of the reference table, then cache invalidation, then
the timed work bracketed by the start and stop timestamps, then
accumulation of the elapsed time into the duration accumulator. -/
theorem c6_trial_protocol (o : Oracles) (n k : Nat) :
    (run (Demo.trial o) k (Demo.init n)).2.1 =
      (List.replicate k [Ev.populateEv, Ev.shuffleEv, Ev.invalidateEv, Ev.timerStartEv,
        Ev.workEv, Ev.timerStopEv, Ev.accumulateEv]).flatten ∧
    (run (Indirection.trial o) k (Indirection.init n)).2.1 =
      (List.replicate k [Ev.populateEv, Ev.invalidateEv, Ev.timerStartEv, Ev.workEv,
        Ev.timerStopEv, Ev.accumulateEv]).flatten ∧
    (run (Base.trial o) k (Base.init n)).2.1 =
      (List.replicate k [Ev.populateEv, Ev.invalidateEv, Ev.timerStartEv, Ev.workEv,
        Ev.timerStopEv, Ev.accumulateEv]).flatten ∧
    iterations = 1000 ∧
    (run (Demo.trial o) iterations (Demo.init n)).2.1.count Ev.workEv = 1000 ∧
    (run (Demo.trial o) iterations (Demo.init n)).2.1.count Ev.shuffleEv = 1000 ∧
    (run (Indirection.trial o) iterations (Indirection.init n)).2.1.count Ev.shuffleEv = 0 ∧
    (run (Base.trial o) iterations (Base.init n)).2.1.count Ev.shuffleEv = 0 ∧
    (∀ (j : Nat) (s : St),
      (Demo.trial o j s).1.runSum = s.runSum + (o.tStop j - o.tStart j)) ∧
    (∀ (j : Nat) (s : St),
      (Base.trial o j s).1.runSum = s.runSum + (o.tStop j - o.tStart j)) ∧
    (∀ (j : Nat) (s : St),
      (Indirection.trial o j s).1.runSum = s.runSum + (o.tStop j - o.tStart j)) := by
  have hdemo := runFrom_evs (Demo.trial o) _ (fun j s => rfl)
  have hind := runFrom_evs (Indirection.trial o) _ (fun j s => rfl)
  have hbase := runFrom_evs (Base.trial o) _ (fun j s => rfl)
  simp only [run]
  refine ⟨hdemo k 0 _, hind k 0 _, hbase k 0 _, rfl, ?_, ?_, ?_, ?_,
    fun j s => rfl, fun j s => rfl, fun j s => rfl⟩
  · rw [hdemo iterations 0 (Demo.init n), count_flatten_replicate]
    decide
  · rw [hdemo iterations 0 (Demo.init n), count_flatten_replicate]
    decide
  · rw [hind iterations 0 (Indirection.init n), count_flatten_replicate]
    decide
  · rw [hbase iterations 0 (Base.init n), count_flatten_replicate]
    decide

/-- C7: starting from zero, after N trials the duration accumulator
equals the sum of the N per-trial elapsed times (stop timestamp minus
start timestamp); when the clock is monotone — every stop at least its
start, which is what the non-negativity in the claim presupposes — each
elapsed time is non-negative, so the accumulator is non-negative, never
decreases from one trial to the next, and is zero after zero trials. -/
theorem c7_accumulator (o : Oracles) (n : Nat)
    (h : ∀ j, o.tStart j ≤ o.tStop j) (N : Nat) :
    (run (Demo.trial o) N (Demo.init n)).1.runSum =
      ((List.range N).map (fun j => o.tStop j - o.tStart j)).sum ∧
    (run (Base.trial o) N (Base.init n)).1.runSum =
      ((List.range N).map (fun j => o.tStop j - o.tStart j)).sum ∧
    (run (Indirection.trial o) N (Indirection.init n)).1.runSum =
      ((List.range N).map (fun j => o.tStop j - o.tStart j)).sum ∧
    (∀ j, 0 ≤ o.tStop j - o.tStart j) ∧
    0 ≤ (run (Demo.trial o) N (Demo.init n)).1.runSum ∧
    (run (Demo.trial o) N (Demo.init n)).1.runSum ≤
      (run (Demo.trial o) (N + 1) (Demo.init n)).1.runSum ∧
    (run (Demo.trial o) 0 (Demo.init n)).1.runSum = 0 := by
  have hd : ∀ M : Nat, (run (Demo.trial o) M (Demo.init n)).1.runSum =
      ((List.range M).map (fun j => o.tStop j - o.tStart j)).sum := by
    intro M
    rw [run_runSum_of (Demo.trial o) (fun j => o.tStop j - o.tStart j) (fun j s => rfl) M]
    show (0 : Int) + _ = _
    rw [zero_add]
  have hb : (run (Base.trial o) N (Base.init n)).1.runSum =
      ((List.range N).map (fun j => o.tStop j - o.tStart j)).sum := by
    rw [run_runSum_of (Base.trial o) (fun j => o.tStop j - o.tStart j) (fun j s => rfl) N]
    show (0 : Int) + _ = _
    rw [zero_add]
  have hi : (run (Indirection.trial o) N (Indirection.init n)).1.runSum =
      ((List.range N).map (fun j => o.tStop j - o.tStart j)).sum := by
    rw [run_runSum_of (Indirection.trial o) (fun j => o.tStop j - o.tStart j)
      (fun j s => rfl) N]
    show (0 : Int) + _ = _
    rw [zero_add]
  have helt : ∀ j, 0 ≤ o.tStop j - o.tStart j := by
    intro j
    have := h j
    omega
  have hsum : ∀ M : Nat,
      0 ≤ ((List.range M).map (fun j => o.tStop j - o.tStart j)).sum := by
    intro M
    apply List.sum_nonneg
    intro x hx
    obtain ⟨j, _, rfl⟩ := List.mem_map.mp hx
    exact helt j
  refine ⟨hd N, hb, hi, helt, ?_, ?_, ?_⟩
  · rw [hd N]
    exact hsum N
  · rw [hd N, hd (N + 1), List.range_succ, List.map_append, List.sum_append]
    simp only [List.map_cons, List.map_nil, List.sum_cons, List.sum_nil]
    have := helt N
    omega
  · rw [hd 0]
    simp

/-- C7, witness: the accumulator theorem applied to a clock that times
every trial at one nanosecond, over two trials. -/
theorem c7_witness :
    (∀ j : Nat, oUnit.tStart j ≤ oUnit.tStop j) ∧
    (run (Demo.trial oUnit) 2 (Demo.init 2)).1.runSum =
      ((List.range 2).map (fun j => oUnit.tStop j - oUnit.tStart j)).sum ∧
    ((List.range 2).map (fun j => oUnit.tStop j - oUnit.tStart j)).sum = 2 := by
  have h : ∀ j : Nat, oUnit.tStart j ≤ oUnit.tStop j := fun j => by
    show (0 : Int) ≤ 1
    decide
  exact ⟨h, (c7_accumulator oUnit 2 h 2).1, by decide⟩

/-- C8: the reported average trial time is exactly the accumulated
trial time expressed in the variant's unit (microseconds for the
reduction variant, nanoseconds for the indirection variants), divided
by the iteration count with integer truncation, with no off-by-one:
N times the average never exceeds the total-in-unit, and N times one
more than the average strictly exceeds it.  The summary printed after
the loop derives its average from the accumulator of the completed
run. -/
theorem c8_reporter_average (actualNs totalNs : Int) (iters : Nat)
    (hN : 0 ≤ totalNs) (hI : 0 < iters) :
    (durationCastUs totalNs).tdiv (iters : Int) =
      ((totalNs.toNat / 1000 / iters : Nat) : Int) ∧
    totalNs.tdiv (iters : Int) = ((totalNs.toNat / iters : Nat) : Int) ∧
    iters * (totalNs.toNat / 1000 / iters) ≤ totalNs.toNat / 1000 ∧
    totalNs.toNat / 1000 < iters * (totalNs.toNat / 1000 / iters + 1) ∧
    iters * (totalNs.toNat / iters) ≤ totalNs.toNat ∧
    totalNs.toNat < iters * (totalNs.toNat / iters + 1) ∧
    (Base.summary actualNs totalNs iters).getD 2 Line.blank =
      Line.avgLine (((totalNs.toNat / 1000 / iters : Nat) : Int).tdiv 1000)
        (((totalNs.toNat / 1000 / iters : Nat) : Int).tmod 1000) ∧
    (Demo.summary actualNs totalNs iters).getD 2 Line.blank =
      Line.avgLine (((totalNs.toNat / iters : Nat) : Int).tdiv 1000)
        (((totalNs.toNat / iters : Nat) : Int).tmod 1000) ∧
    (∀ (o : Oracles) (m : Nat), Demo.out o m iters =
      Demo.summary (o.progEnd - o.progStart)
        ((run (Demo.trial o) iters (Demo.init m)).1.runSum) iters) := by
  obtain ⟨t, rfl⟩ := Int.eq_ofNat_of_zero_le hN
  refine ⟨rfl, rfl, ?_, ?_, ?_, ?_, rfl, rfl, fun o m => rfl⟩
  · simpa using (div_bracket (t / 1000) iters hI).1
  · simpa using (div_bracket (t / 1000) iters hI).2
  · simpa using (div_bracket t iters hI).1
  · simpa using (div_bracket t iters hI).2

/-- C8, witness: the reporter theorem applied to an accumulated
12345678 ns over 5 trials: the average is 12345 μs / 5 = 2469 μs and
the base summary prints it as 2.469. -/
theorem c8_witness :
    ((0 : Int) ≤ 12345678) ∧ ((0 : Nat) < 5) ∧
    (durationCastUs 12345678).tdiv ((5 : Nat) : Int) =
      (((12345678 : Int).toNat / 1000 / 5 : Nat) : Int) ∧
    (Base.summary 0 12345678 5).getD 2 Line.blank = Line.avgLine 2 469 := by
  exact ⟨by decide, by decide,
    (c8_reporter_average 0 12345678 5 (by decide) (by decide)).1, by decide⟩

/-- C9, counterexample: not every variant emits a progress line per
trial — a demo.cpp trial writes nothing to standard output — and the
indirection variants' average line is not milliseconds with nanosecond
granularity: with 2500000 ns accumulated over 1000 trials the average
is 2500 ns = 0.002500 ms, whose milliseconds-with-nanosecond-
granularity rendering would be the pair (0, 2500), but the summary
prints the pair (2, 500). -/
theorem c9_counterexample :
    (Demo.trial oZero 0 (Demo.init 2)).2.2 = [] ∧
    (Demo.trial oZero 0 (Demo.init 2)).2.2.length ≠ 1 ∧
    (Demo.summary 0 2500000 1000).getD 2 Line.blank = Line.avgLine 2 500 ∧
    (2500000 : Int).tdiv ((1000 : Nat) : Int) = 2500 ∧
    (2500 : Int).tdiv 1000000 = 0 ∧ (2500 : Int).tmod 1000000 = 2500 ∧
    Line.avgLine 2 500 ≠ Line.avgLine 0 2500 := by
  exact ⟨by decide, by decide, by decide, by decide, by decide, by decide, by decide⟩

/-- C9, amended: the reduction variant emits one progress line per
trial (overwritten in place) and the indirection variants emit no
per-trial output; every variant then emits a three-line summary whose
first two lines give the wall-clock runtime and the accumulated trial
time in seconds.milliseconds, and whose third line prints the pair
obtained by dividing the average-in-unit by 1000 with remainder — for
the reduction variant the unit is microseconds, so the line reads
milliseconds.microseconds; for the indirection variants the unit is
nanoseconds, so the printed figure is microseconds.nanoseconds even
though its label says milliseconds. -/
theorem c9_output_contract (o : Oracles) (n iters k : Nat) :
    (run (Base.trial o) k (Base.init n)).2.2.length = k ∧
    (∀ l ∈ (run (Base.trial o) k (Base.init n)).2.2, l.isProgress = true) ∧
    (run (Demo.trial o) k (Demo.init n)).2.2 = [] ∧
    (run (Indirection.trial o) k (Indirection.init n)).2.2 = [] ∧
    Base.out o n iters =
      (run (Base.trial o) iters (Base.init n)).2.2 ++ [Line.blank] ++
        Base.summary (o.progEnd - o.progStart)
          ((run (Base.trial o) iters (Base.init n)).1.runSum) iters ∧
    Demo.out o n iters =
      Demo.summary (o.progEnd - o.progStart)
        ((run (Demo.trial o) iters (Demo.init n)).1.runSum) iters ∧
    Indirection.out o n iters =
      Indirection.summary (o.progEnd - o.progStart)
        ((run (Indirection.trial o) iters (Indirection.init n)).1.runSum) iters ∧
    (∀ (a t : Int) (i : Nat), (Base.summary a t i).length = 3) ∧
    (∀ (a t : Int) (i : Nat), (Demo.summary a t i).length = 3) ∧
    (∀ (a t : Int) (i : Nat), (Indirection.summary a t i).length = 3) ∧
    (∀ (a t : Int) (i : Nat), Base.summary a t i =
      [Line.totalLine ((durationCastMs a).tdiv 1000) ((durationCastMs a).tmod 1000),
       Line.runsLine i ((durationCastMs t).tdiv 1000) ((durationCastMs t).tmod 1000),
       Line.avgLine (((durationCastUs t).tdiv (i : Int)).tdiv 1000)
         (((durationCastUs t).tdiv (i : Int)).tmod 1000)]) ∧
    (∀ (a t : Int) (i : Nat), Demo.summary a t i =
      [Line.totalLine ((durationCastMs a).tdiv 1000) ((durationCastMs a).tmod 1000),
       Line.runsLine i ((durationCastMs t).tdiv 1000) ((durationCastMs t).tmod 1000),
       Line.avgLine ((t.tdiv (i : Int)).tdiv 1000) ((t.tdiv (i : Int)).tmod 1000)]) ∧
    (∀ (a t : Int) (i : Nat), Demo.summary a t i = Indirection.summary a t i) := by
  simp only [run]
  refine ⟨?_, ?_, ?_, ?_, rfl, rfl, rfl, fun a t i => rfl, fun a t i => rfl,
    fun a t i => rfl, fun a t i => rfl, fun a t i => rfl, fun a t i => rfl⟩
  · exact runFrom_out_length (Base.trial o) (fun j s => rfl) k 0 (Base.init n)
  · apply runFrom_out_forall (Base.trial o) (fun l => l.isProgress = true)
    intro j s l hl
    rw [List.mem_singleton.mp hl]
    rfl
  · exact runFrom_out_nil (Demo.trial o) (fun j s => rfl) k 0 (Demo.init n)
  · exact runFrom_out_nil (Indirection.trial o) (fun j s => rfl) k 0 (Indirection.init n)

/-- C9, witness: the amended output theorem applied to a one-trial run
of the base variant on a one-element buffer, whose single output line
is the progress line "Run 1: 1". -/
theorem c9_witness :
    (Line.progress 1 1 ∈ (run (Base.trial oZero) 1 (Base.init 1)).2.2) ∧
    (Line.progress 1 1).isProgress = true ∧
    (run (Base.trial oZero) 1 (Base.init 1)).2.2.length = 1 ∧
    (run (Demo.trial oZero) 1 (Demo.init 1)).2.2 = [] := by
  have h := c9_output_contract oZero 1 1 1
  exact ⟨by decide, h.2.1 (Line.progress 1 1) (by decide), h.1, h.2.2.1⟩

/-- C10: the reduction executor divides by the buffer's element count,
so it is undefined (division by zero) exactly on the empty buffer and
total on every non-empty buffer. -/
theorem c10_empty_buffer :
    Base.doWork [] = none ∧
    ∀ data : List Int, data ≠ [] → (Base.doWork data).isSome = true := by
  constructor
  · rfl
  · intro data hne
    unfold Base.doWork
    rw [if_neg (fun h => hne (List.length_eq_zero.mp h))]
    rfl

/-- C10, witness: the empty buffer yields no result, the buffer [3]
yields one. -/
theorem c10_witness :
    Base.doWork [] = none ∧ (Base.doWork [3]).isSome = true :=
  ⟨c10_empty_buffer.1, c10_empty_buffer.2 [3] (by decide)⟩

end CacheDemo
